import Mathlib

/-!
Shallow embedding of the mtr-logger path-probe engine (src/mtrpy), covering:

* `stats.py` — `HopStat` and `Circuit.update_hop_round` (cumulative per-hop
  counters).  Python ints are modelled as `Int`/`Nat`; Python floats carrying
  RTT millisecond values are modelled as exact rationals `ℚ` (only order,
  `min`/`max`, sums and list membership of these values matter to the claims,
  all of which are faithful under this idealisation).
* `tracer.py` — the pure parsing part of `run_tracer_round` (regex
  `^\s*(\d+)\s+(.+)$` for hop lines, `([0-9]+\.[0-9]+)\s*ms` for RTT samples,
  the `*`-row branch, the address-token scan) and the subprocess/timeout
  skeleton around it.  Text is modelled as `List Char` per line (ASCII; the
  program feeds it `bytes.decode("utf-8","replace").splitlines()`).
* `cli.py` — the q=1 per-round parser `run_traceroute_round` with its timeout
  path, the in-loop statistics update of `mtr_loop` (lines 175‑183), the
  per-refresh loss-alert block (lines 199‑211) and the inter-round sleep
  (line 223).

Python `dict[int, V]` is modelled as the function map `Nat → Option V`
(hop numbers come from `\d+` matches, hence `Nat` keys).
-/

set_option linter.unnecessarySeqFocus false

namespace Mtr

/-! ### stats.py : HopStat and Circuit -/

/-- `HopStat` dataclass of `stats.py` (fields in source order). -/
structure HopStat where
  ttl : Nat
  address : Option String
  sent : Int := 0
  recv : Int := 0
  best_ms : Option ℚ := none
  worst_ms : Option ℚ := none
  avg_ms : Option ℚ := none
  rtts : List ℚ := []
deriving Repr, DecidableEq

/-- Python truthiness of an `Optional[str]`: `None` and `""` are falsy. -/
def strTruthy : Option String → Bool
  | none => false
  | some s => !s.isEmpty

/-- `Circuit.hops : Dict[int, HopStat]`, modelled as a function map. -/
def Circuit := Nat → Option HopStat

/-- A freshly constructed `Circuit()` (empty `hops` dict). -/
def Circuit.empty : Circuit := fun _ => none

/-- `Circuit._get`: fetch or create the `HopStat` for `ttl`, filling in a
previously unknown address (`if address and not hop.address`). -/
def Circuit.getHop (c : Circuit) (ttl : Nat) (address : Option String) : HopStat :=
  let hop :=
    match c ttl with
    | some h => h
    | none => { ttl := ttl, address := address }
  if strTruthy address && !strTruthy hop.address then
    { hop with address := address }
  else hop

/-- Body of the `for rtt in samples_ms` loop of `update_hop_round`. -/
def foldSample (h : HopStat) (rtt : ℚ) : HopStat :=
  { h with
    recv := h.recv + 1
    rtts := h.rtts ++ [rtt]
    best_ms := some (match h.best_ms with | none => rtt | some b => min b rtt)
    worst_ms := some (match h.worst_ms with | none => rtt | some w => max w rtt) }

/-- Final step of `update_hop_round`: `if hop.rtts: hop.avg_ms = sum/len`. -/
def avgStep (h : HopStat) : HopStat :=
  if h.rtts.isEmpty then h
  else { h with avg_ms := some (h.rtts.sum / (h.rtts.length : ℚ)) }

/-- The successive mutations `update_hop_round` applies to the fetched hop:
clamp a negative probe count to 0, add it to `sent`, fold in the round's RTT
samples, then recompute the running average when any samples are stored. -/
def applyRound (hop : HopStat) (p : Int) (s : List ℚ) : HopStat :=
  avgStep (s.foldl foldSample { hop with sent := hop.sent + (if p < 0 then 0 else p) })

/-- `Circuit.update_hop_round`: fetch/create the hop via `_get`, mutate it per
`applyRound`, and store it back under its ttl. -/
def Circuit.update_hop_round (c : Circuit) (ttl : Nat) (address : Option String)
    (probes_attempted : Int) (samples_ms : List ℚ) : Circuit :=
  fun t => if t = ttl then some (applyRound (c.getHop ttl address) probes_attempted samples_ms)
           else c t

/-- One ingestion call, as issued against `Circuit.update_hop_round`. -/
structure IngestCall where
  ttl : Nat
  address : Option String
  probes : Int
  samples : List ℚ
deriving Repr, DecidableEq

/-- Ingest a sequence of calls (e.g. one round's per-hop entries) in order. -/
def Circuit.ingestAll (c : Circuit) (calls : List IngestCall) : Circuit :=
  calls.foldl (fun c cl => c.update_hop_round cl.ttl cl.address cl.probes cl.samples) c

/-- The `sent` counter of hop `t` (0 when the hop is absent from the table). -/
def sentOf (c : Circuit) (t : Nat) : Int :=
  match c t with
  | none => 0
  | some h => h.sent

/-- The `recv` counter of hop `t` (0 when the hop is absent from the table). -/
def recvOf (c : Circuit) (t : Nat) : Int :=
  match c t with
  | none => 0
  | some h => h.recv

/-- The stored RTT sample list of hop `t` (`[]` when the hop is absent). -/
def rttsOf (c : Circuit) (t : Nat) : List ℚ :=
  match c t with
  | none => []
  | some h => h.rtts

/-! ### Basic update lemmas -/

theorem foldSample_sent (h : HopStat) (r : ℚ) : (foldSample h r).sent = h.sent := rfl

theorem foldSample_recv (h : HopStat) (r : ℚ) : (foldSample h r).recv = h.recv + 1 := rfl

theorem foldSample_rtts (h : HopStat) (r : ℚ) : (foldSample h r).rtts = h.rtts ++ [r] := rfl

theorem foldl_foldSample_sent (s : List ℚ) (h : HopStat) :
    (s.foldl foldSample h).sent = h.sent := by
  induction s generalizing h with
  | nil => rfl
  | cons a s ih => simpa [foldSample] using ih (foldSample h a)

theorem foldl_foldSample_recv (s : List ℚ) (h : HopStat) :
    (s.foldl foldSample h).recv = h.recv + s.length := by
  induction s generalizing h with
  | nil => simp
  | cons a s ih =>
    simp only [List.foldl_cons, ih, foldSample_recv, List.length_cons]
    omega

theorem foldl_foldSample_rtts (s : List ℚ) (h : HopStat) :
    (s.foldl foldSample h).rtts = h.rtts ++ s := by
  induction s generalizing h with
  | nil => simp
  | cons a s ih =>
    simp only [List.foldl_cons, ih, foldSample_rtts, List.append_assoc]
    rfl

theorem getHop_sent (c : Circuit) (ttl : Nat) (a : Option String) :
    (c.getHop ttl a).sent = sentOf c ttl := by
  unfold Circuit.getHop sentOf
  cases c ttl <;> simp <;> split <;> rfl

theorem getHop_recv (c : Circuit) (ttl : Nat) (a : Option String) :
    (c.getHop ttl a).recv = recvOf c ttl := by
  unfold Circuit.getHop recvOf
  cases c ttl <;> simp <;> split <;> rfl

theorem getHop_rtts (c : Circuit) (ttl : Nat) (a : Option String) :
    (c.getHop ttl a).rtts = rttsOf c ttl := by
  unfold Circuit.getHop rttsOf
  cases c ttl <;> simp <;> split <;> rfl

theorem avgStep_sent (h : HopStat) : (avgStep h).sent = h.sent := by
  unfold avgStep; split; rfl; rfl

theorem avgStep_recv (h : HopStat) : (avgStep h).recv = h.recv := by
  unfold avgStep; split; rfl; rfl

theorem avgStep_rtts (h : HopStat) : (avgStep h).rtts = h.rtts := by
  unfold avgStep; split; rfl; rfl

theorem applyRound_sent (h : HopStat) (p : Int) (s : List ℚ) :
    (applyRound h p s).sent = h.sent + (if p < 0 then 0 else p) := by
  unfold applyRound
  rw [avgStep_sent, foldl_foldSample_sent]

theorem applyRound_recv (h : HopStat) (p : Int) (s : List ℚ) :
    (applyRound h p s).recv = h.recv + s.length := by
  unfold applyRound
  rw [avgStep_recv, foldl_foldSample_recv]

theorem applyRound_rtts (h : HopStat) (p : Int) (s : List ℚ) :
    (applyRound h p s).rtts = h.rtts ++ s := by
  unfold applyRound
  rw [avgStep_rtts, foldl_foldSample_rtts]

theorem sentOf_some {c : Circuit} {t : Nat} {h : HopStat} (hc : c t = some h) :
    sentOf c t = h.sent := by
  unfold sentOf; rw [hc]

theorem recvOf_some {c : Circuit} {t : Nat} {h : HopStat} (hc : c t = some h) :
    recvOf c t = h.recv := by
  unfold recvOf; rw [hc]

theorem rttsOf_some {c : Circuit} {t : Nat} {h : HopStat} (hc : c t = some h) :
    rttsOf c t = h.rtts := by
  unfold rttsOf; rw [hc]

theorem update_self (c : Circuit) (ttl : Nat) (a : Option String)
    (p : Int) (s : List ℚ) :
    (c.update_hop_round ttl a p s) ttl = some (applyRound (c.getHop ttl a) p s) := by
  show (if ttl = ttl then _ else _) = _
  rw [if_pos rfl]

theorem sentOf_update_self (c : Circuit) (ttl : Nat) (a : Option String)
    (p : Int) (s : List ℚ) :
    sentOf (c.update_hop_round ttl a p s) ttl = sentOf c ttl + (if p < 0 then 0 else p) := by
  rw [sentOf_some (update_self c ttl a p s), applyRound_sent, getHop_sent]

theorem recvOf_update_self (c : Circuit) (ttl : Nat) (a : Option String)
    (p : Int) (s : List ℚ) :
    recvOf (c.update_hop_round ttl a p s) ttl = recvOf c ttl + s.length := by
  rw [recvOf_some (update_self c ttl a p s), applyRound_recv, getHop_recv]

theorem rttsOf_update_self (c : Circuit) (ttl : Nat) (a : Option String)
    (p : Int) (s : List ℚ) :
    rttsOf (c.update_hop_round ttl a p s) ttl = rttsOf c ttl ++ s := by
  rw [rttsOf_some (update_self c ttl a p s), applyRound_rtts, getHop_rtts]

theorem update_frame (c : Circuit) (ttl : Nat) (a : Option String)
    (p : Int) (s : List ℚ) (t : Nat) (ht : t ≠ ttl) :
    (c.update_hop_round ttl a p s) t = c t := by
  show (if t = ttl then _ else c t) = c t
  rw [if_neg ht]

/-! ### tracer.py : the output parser of `run_tracer_round`

Characters are ASCII (traceroute output); Python's `\\s` and `\\d` classes are
modelled over ASCII accordingly. -/

/-- Python regex `\s` over ASCII. -/
def wsChar (c : Char) : Bool :=
  c = ' ' || c = '\t' || c = '\n' || c = '\r' || c = Char.ofNat 11 || c = Char.ofNat 12

/-- Python regex `\d` / `[0-9]` over ASCII. -/
def digitChar (c : Char) : Bool := '0' ≤ c && c ≤ '9'

/-- Value of a decimal digit string (what `int(...)` yields on a `\d+` match). -/
def digitsToNat (ds : List Char) : Nat :=
  ds.foldl (fun a c => 10 * a + (c.toNat - '0'.toNat)) 0

/-- `str.strip()`: drop leading and trailing whitespace. -/
def stripWs (s : List Char) : List Char :=
  ((s.dropWhile wsChar).reverse.dropWhile wsChar).reverse

/-- `_TR_PAT = ^\s*(\d+)\s+(.+)$` applied to one line: on a match, return the
hop number `int(group(1))` and `group(2)`.  The character classes `\s`, `\d`
and `.` are pairwise disjoint enough that the greedy match is deterministic,
except when everything after the digits is whitespace: there `\s+` backtracks
one character so that `.+` can still take one (whitespace) character. -/
def matchTR (line : List Char) : Option (Nat × List Char) :=
  let afterWs := line.dropWhile wsChar
  let digits := afterWs.takeWhile digitChar
  let rest1 := (afterWs.dropWhile digitChar)
  if digits.isEmpty then none
  else
    let w := rest1.takeWhile wsChar
    let r := rest1.dropWhile wsChar
    if w.isEmpty then none
    else if r.isEmpty then
      if 2 ≤ w.length then
        match w.getLast? with
        | some c => some (digitsToNat digits, [c])
        | none => none
      else none
    else some (digitsToNat digits, r)

/-- `float(...)` of a `[0-9]+\.[0-9]+` match, idealised as an exact rational. -/
def ratOfDigits (d1 d2 : List Char) : ℚ :=
  (digitsToNat d1 : ℚ) + (digitsToNat d2 : ℚ) / ((10 : ℚ) ^ d2.length)

/-- Try `_RTTS_PAT = ([0-9]+\.[0-9]+)\s*ms` anchored at the head of `s`; on
success return the sample value and the remainder after the match (the greedy
quantifiers are deterministic here because digits, `.`, whitespace and `m`
are disjoint). -/
def matchRttAt (s : List Char) : Option (ℚ × List Char) :=
  let d1 := s.takeWhile digitChar
  let s1 := s.dropWhile digitChar
  if d1.isEmpty then none
  else
    match s1 with
    | '.' :: s2 =>
      let d2 := s2.takeWhile digitChar
      let s3 := s2.dropWhile digitChar
      if d2.isEmpty then none
      else
        match s3.dropWhile wsChar with
        | 'm' :: 's' :: rest => some (ratOfDigits d1 d2, rest)
        | _ => none
    | _ => none

/-- `_RTTS_PAT.findall`: scan left to right for non-overlapping matches,
resuming after each match (fuel = remaining length; every match consumes at
least one character, so the fuel never runs out). -/
def findRttsAux : Nat → List Char → List ℚ
  | 0, _ => []
  | _ + 1, [] => []
  | fuel + 1, c :: cs =>
    match matchRttAt (c :: cs) with
    | some (q, rest) => q :: findRttsAux fuel rest
    | none => findRttsAux fuel cs

/-- `[float(x) for x in _RTTS_PAT.findall(rest)]`. -/
def findRtts (s : List Char) : List ℚ := findRttsAux s.length s

/-- `_looks_like_ip`: `token.count(".") == 3` or `":" in token`. -/
def looksLikeIp (token : List Char) : Bool :=
  token.count '.' = 3 || token.contains ':'

/-- `str.split()` (no argument): split on whitespace runs, dropping empties. -/
def splitTokens (s : List Char) : List (List Char) :=
  (s.splitOnP (fun c => wsChar c)).filter (fun t => !t.isEmpty)

/-- `rest.replace("(", " ").replace(")", " ")`. -/
def normalizeParens (s : List Char) : List Char :=
  s.map (fun c => if c = '(' || c = ')' then ' ' else c)

/-- The `for token in ...` scan keeping the last IP-looking token. -/
def lastIpToken (tokens : List (List Char)) : Option (List Char) :=
  tokens.foldl (fun acc t => if looksLikeIp t then some t else acc) none

/-- Result triple being built by the parsing loop of `run_tracer_round`:
`rtts_by_ttl`, `addr_by_ttl` and the `ok` flag. -/
structure ParseState where
  rtts : Nat → Option (List ℚ)
  addrs : Nat → Option (Option (List Char))
  ok : Bool

/-- Initial state: two empty dicts and `ok = False`. -/
def ParseState.init : ParseState :=
  { rtts := fun _ => none, addrs := fun _ => none, ok := false }

/-- State of the two result dicts and `ok` after the all-star branch
(`addr_by_ttl[ttl] = None; rtts_by_ttl.setdefault(ttl, [])`). -/
def starBranch (st : ParseState) (ttl : Nat) : ParseState :=
  { ok := true
    addrs := fun t => if t = ttl then some none else st.addrs t
    rtts := fun t => if t = ttl then some ((st.rtts ttl).getD []) else st.rtts t }

/-- State after the address/sample branch (`addr_by_ttl[ttl] = addr_ip;
rtts_by_ttl[ttl] = samples`). -/
def sampleBranch (st : ParseState) (ttl : Nat) (rest : List Char) : ParseState :=
  { ok := true
    addrs := fun t => if t = ttl then some (lastIpToken (splitTokens (normalizeParens rest)))
                      else st.addrs t
    rtts := fun t => if t = ttl then some (findRtts rest) else st.rtts t }

/-- One iteration of the `for line in text` loop of `run_tracer_round`:
skip unmatched lines; `rest.startswith("*")` selects the all-star branch. -/
def parseLine (st : ParseState) (line : List Char) : ParseState :=
  match matchTR line with
  | none => st
  | some (ttl, grp2) =>
    let rest := stripWs grp2
    if rest.head? = some '*' then starBranch st ttl
    else sampleBranch st ttl rest

/-- The whole parsing loop of `run_tracer_round` over the split output lines. -/
def parseTracerOutput (lines : List (List Char)) : ParseState :=
  lines.foldl parseLine ParseState.init

/-! ### tracer.py : the round runner around the parser

`run_tracer_round` spawns the subprocess and waits with
`asyncio.wait_for(proc.communicate(), timeout=round_budget)`.  The three ways
that wait can end are modelled by `CommOutcome`; the returned value also
records whether `proc.kill()` was issued. -/

/-- Outcome of awaiting the subprocess: normal completion with the decoded,
split stdout lines; the round budget expiring; or caller cancellation. -/
inductive CommOutcome where
  | completed (lines : List (List Char))
  | timedOut
  | cancelled
deriving Repr, DecidableEq

/-- The exception `run_tracer_round` lets escape (only `CancelledError`). -/
inductive TracerRaise where
  | cancelledError
deriving Repr, DecidableEq

/-- `run_tracer_round` after process creation: on timeout the process is
killed, the captured output is replaced by `b""` (which splits into no lines)
and parsing proceeds; on cancellation the process is killed and the exception
is re-raised; otherwise the captured lines are parsed.  The `Bool` records
whether `proc.kill()` ran. -/
def run_tracer_round (comm : CommOutcome) : Except TracerRaise (ParseState × Bool) :=
  match comm with
  | .completed lines => .ok (parseTracerOutput lines, false)
  | .timedOut => .ok (parseTracerOutput [], true)
  | .cancelled => .error .cancelledError

/-! ### cli.py : `run_traceroute_round` (q=1 parser and its timeout path) -/

/-- `RTT_RE = (\d+(?:\.\d+)?)\s*ms` anchored at the head of `s`.  The integer
part is greedy; the optional fractional group is tried first and dropped if
`\s*ms` cannot follow it. -/
def matchCliRttAt (s : List Char) : Option ℚ :=
  let d1 := s.takeWhile digitChar
  let s1 := s.dropWhile digitChar
  if d1.isEmpty then none
  else
    let msAfter : List Char → Bool := fun t =>
      match t.dropWhile wsChar with
      | 'm' :: 's' :: _ => true
      | _ => false
    let frac : Option ℚ :=
      match s1 with
      | '.' :: s2 =>
        let d2 := s2.takeWhile digitChar
        let s3 := s2.dropWhile digitChar
        if d2.isEmpty then none
        else if msAfter s3 then some (ratOfDigits d1 d2) else none
      | _ => none
    match frac with
    | some q => some q
    | none => if msAfter s1 then some ((digitsToNat d1 : ℚ)) else none

/-- `RTT_RE.search(line)`: first position (left to right) where the pattern
matches, if any. -/
def searchCliRtt : List Char → Option ℚ
  | [] => none
  | c :: cs =>
    match matchCliRttAt (c :: cs) with
    | some q => some q
    | none => searchCliRtt cs

/-- One iteration of the parsing loop of `run_traceroute_round`: skip
unmatched lines, skip any line containing `*`, and on an RTT match store the
first sample of the line under its ttl. -/
def cliParseLine (rtts : Nat → Option ℚ) (line : List Char) : Nat → Option ℚ :=
  match matchTR line with
  | none => rtts
  | some (ttl, _grp2) =>
    if line.contains '*' then rtts
    else
      match searchCliRtt line with
      | some q => fun t => if t = ttl then some q else rtts t
      | none => rtts

/-- The parsing loop of `run_traceroute_round` over the split output lines. -/
def cliParseRound (lines : List (List Char)) : Nat → Option ℚ :=
  lines.foldl cliParseLine (fun _ => none)

/-- `run_traceroute_round` after process creation: on timeout it kills the
process and returns `{}` from the `finally` block; `CancelledError` has no
handler here, so cancellation propagates to the caller. -/
def run_traceroute_round (comm : CommOutcome) :
    Except TracerRaise ((Nat → Option ℚ) × Bool) :=
  match comm with
  | .completed lines => .ok (cliParseRound lines, false)
  | .timedOut => .ok (fun _ => none, true)
  | .cancelled => .error .cancelledError

/-! ### cli.py : the per-round statistics update of `mtr_loop` (lines 175-183) -/

/-- Body of `for hs in hopstats` in `mtr_loop`: `hs.sent += 1`, then if the
round result holds an RTT for this ttl, fold it in. -/
def mtrStepHop (rtts : Nat → Option ℚ) (hs : HopStat) : HopStat :=
  let hs := { hs with sent := hs.sent + 1 }
  match rtts hs.ttl with
  | none => hs
  | some rtt =>
    let hs := { hs with
      recv := hs.recv + 1
      rtts := hs.rtts ++ [rtt]
      best_ms := some (match hs.best_ms with | none => rtt | some b => min b rtt)
      worst_ms := some (match hs.worst_ms with | none => rtt | some w => max w rtt) }
    { hs with
      avg_ms := if hs.rtts.isEmpty then none
                else some (hs.rtts.sum / (hs.rtts.length : ℚ)) }

/-- The whole `# update stats` block of one `mtr_loop` iteration. -/
def mtrUpdateStats (hopstats : List HopStat) (rtts : Nat → Option ℚ) : List HopStat :=
  hopstats.map (mtrStepHop rtts)

/-! ### cli.py : the per-refresh loss-alert block of `mtr_loop` (lines 199-211) -/

/-- Eligibility test of the alert block: hops with `address in (None, "*")`
are skipped, and an alert line is appended iff `lost > 0`. -/
def alertEligible (hs : HopStat) : Bool :=
  !(hs.address = none || hs.address = some "*") && 0 < max 0 (hs.sent - hs.recv)

/-- One render pass of the alert block over the table rows in ttl order: for
every eligible hop, an alert carrying the hop number and its current total
`lost = max(0, sent - recv)` is emitted.  The block keeps no state between
passes. -/
def lossAlertPass (hops : List HopStat) : List (Nat × Int) :=
  hops.filterMap (fun hs =>
    if hs.address = none || hs.address = some "*" then none
    else
      let lost := max 0 (hs.sent - hs.recv)
      if 0 < lost then some (hs.ttl, lost) else none)

/-! ### cli.py : the inter-round sleep of `mtr_loop` (line 223) -/

/-- `await asyncio.sleep(max(0.01, float(interval)))`: the pause between
rounds as the code computes it (a constant in the round's duration). -/
def loopSleepSeconds (interval : ℚ) : ℚ := max (1 / 100) interval

/-- Modelled from the spec's words, for comparison with `loopSleepSeconds`:
"sleep for `max(0, interval - round_duration)` before the next tick". -/
def specSleepSeconds (interval roundDuration : ℚ) : ℚ :=
  max 0 (interval - roundDuration)


/-! ### Parser behaviour lemmas -/

/-- Whether a line is recognized by `_TR_PAT` with hop number `n`. -/
def mentionsHop (n : Nat) (l : List Char) : Bool :=
  match matchTR l with
  | some (m, _) => m == n
  | none => false

/-- Whether a line, whenever it concerns hop `n` at all, is an all-star row
(so that it can only `setdefault` hop `n`'s samples, never replace them). -/
def starOrOtherFor (n : Nat) (l : List Char) : Bool :=
  match matchTR l with
  | none => true
  | some (m, g) => if m = n then (stripWs g).head? == some '*' else true

theorem parseLine_skip {st : ParseState} {l : List Char} (h : matchTR l = none) :
    parseLine st l = st := by
  unfold parseLine
  rw [h]

theorem parseLine_match {st : ParseState} {l : List Char} {n : Nat} {g : List Char}
    (hm : matchTR l = some (n, g)) :
    parseLine st l =
      if (stripWs g).head? = some '*' then starBranch st n
      else sampleBranch st n (stripWs g) := by
  unfold parseLine
  rw [hm]

/-- A line that does not mention hop `n` leaves both dicts unchanged at `n`. -/
theorem parseLine_frame {st : ParseState} {l : List Char} {n : Nat}
    (h : mentionsHop n l = false) :
    (parseLine st l).rtts n = st.rtts n ∧ (parseLine st l).addrs n = st.addrs n := by
  unfold mentionsHop at h
  cases hm : matchTR l with
  | none => rw [parseLine_skip hm]; exact ⟨rfl, rfl⟩
  | some p =>
    obtain ⟨m, g⟩ := p
    rw [hm] at h
    have hmn : m ≠ n := by simpa using h
    have hnm : n ≠ m := fun hh => hmn hh.symm
    rw [parseLine_match hm]
    split
    · exact ⟨by simp [starBranch, hnm], by simp [starBranch, hnm]⟩
    · exact ⟨by simp [sampleBranch, hnm], by simp [sampleBranch, hnm]⟩

/-- Frame over a whole run of lines none of which mention hop `n`. -/
theorem foldl_parseLine_frame {n : Nat} (ls : List (List Char)) (st : ParseState)
    (h : ∀ l ∈ ls, mentionsHop n l = false) :
    (ls.foldl parseLine st).rtts n = st.rtts n ∧
    (ls.foldl parseLine st).addrs n = st.addrs n := by
  induction ls generalizing st with
  | nil => exact ⟨rfl, rfl⟩
  | cons l ls ih =>
    have h1 := @parseLine_frame st l n (h l (by simp))
    have h2 := ih (parseLine st l) (fun l hl => h l (by simp [hl]))
    exact ⟨h2.1.trans h1.1, h2.2.trans h1.2⟩

/-- `parseLine` never deletes a key from either dict. -/
theorem parseLine_isSome_mono {st : ParseState} {l : List Char} {n : Nat} :
    ((st.rtts n).isSome → ((parseLine st l).rtts n).isSome) ∧
    ((st.addrs n).isSome → ((parseLine st l).addrs n).isSome) := by
  cases hm : matchTR l with
  | none => rw [parseLine_skip hm]; exact ⟨id, id⟩
  | some p =>
    obtain ⟨m, g⟩ := p
    rw [parseLine_match hm]
    by_cases hnm : n = m
    · subst hnm
      split
      · exact ⟨fun _ => by simp [starBranch], fun _ => by simp [starBranch]⟩
      · exact ⟨fun _ => by simp [sampleBranch], fun _ => by simp [sampleBranch]⟩
    · split
      · exact ⟨by simp [starBranch, hnm], by simp [starBranch, hnm]⟩
      · exact ⟨by simp [sampleBranch, hnm], by simp [sampleBranch, hnm]⟩

/-- A line that is star-or-other for hop `n` preserves an existing sample
list stored for `n` (the star branch uses `setdefault`). -/
theorem parseLine_preserves_samples {st : ParseState} {l : List Char} {n : Nat}
    {samples : List ℚ} (hst : st.rtts n = some samples)
    (h : starOrOtherFor n l = true) :
    (parseLine st l).rtts n = some samples := by
  unfold starOrOtherFor at h
  cases hm : matchTR l with
  | none => rw [parseLine_skip hm, hst]
  | some p =>
    obtain ⟨m, g⟩ := p
    rw [hm] at h
    rw [parseLine_match hm]
    by_cases hmn : m = n
    · subst hmn
      have hstar : (stripWs g).head? = some '*' := by simpa using h
      rw [if_pos hstar]
      simp [starBranch, hst]
    · have hnm : n ≠ m := fun hh => hmn hh.symm
      split
      · simp [starBranch, hnm, hst]
      · simp [sampleBranch, hnm, hst]

/-- Runs of star-or-other lines for `n` preserve `n`'s sample list. -/
theorem foldl_parseLine_preserves_samples {n : Nat} (ls : List (List Char))
    (st : ParseState) {samples : List ℚ} (hst : st.rtts n = some samples)
    (h : ∀ l ∈ ls, starOrOtherFor n l = true) :
    (ls.foldl parseLine st).rtts n = some samples := by
  induction ls generalizing st with
  | nil => exact hst
  | cons l ls ih =>
    exact ih (parseLine st l)
      (parseLine_preserves_samples hst (h l (by simp)))
      (fun l hl => h l (by simp [hl]))


/-- Invariant tying the two result dicts and the `ok` flag together. -/
def KeysOkInv (st : ParseState) : Prop :=
  (∀ t, (st.rtts t).isSome ↔ (st.addrs t).isSome) ∧
  (st.ok = true ↔ ∃ t, (st.rtts t).isSome)

theorem keysOkInv_init : KeysOkInv ParseState.init := by
  constructor
  · intro t; simp [ParseState.init]
  · simp [ParseState.init]

theorem keysOkInv_starBranch {st : ParseState} (h : KeysOkInv st) (n : Nat) :
    KeysOkInv (starBranch st n) := by
  obtain ⟨hk, _⟩ := h
  constructor
  · intro t
    by_cases ht : t = n
    · subst ht; simp [starBranch]
    · simpa [starBranch, ht] using hk t
  · constructor
    · intro _; exact ⟨n, by simp [starBranch]⟩
    · intro _; rfl

theorem keysOkInv_sampleBranch {st : ParseState} (h : KeysOkInv st) (n : Nat)
    (rest : List Char) : KeysOkInv (sampleBranch st n rest) := by
  obtain ⟨hk, _⟩ := h
  constructor
  · intro t
    by_cases ht : t = n
    · subst ht; simp [sampleBranch]
    · simpa [sampleBranch, ht] using hk t
  · constructor
    · intro _; exact ⟨n, by simp [sampleBranch]⟩
    · intro _; rfl

theorem keysOkInv_parseLine {st : ParseState} (h : KeysOkInv st) (l : List Char) :
    KeysOkInv (parseLine st l) := by
  cases hm : matchTR l with
  | none => rw [parseLine_skip hm]; exact h
  | some p =>
    obtain ⟨m, g⟩ := p
    rw [parseLine_match hm]
    split
    · exact keysOkInv_starBranch h m
    · exact keysOkInv_sampleBranch h m _

theorem keysOkInv_foldl (ls : List (List Char)) (st : ParseState)
    (h : KeysOkInv st) : KeysOkInv (ls.foldl parseLine st) := by
  induction ls generalizing st with
  | nil => exact h
  | cons l ls ih => exact ih _ (keysOkInv_parseLine h l)

theorem sentOf_congr {c1 c2 : Circuit} {t : Nat} (h : c1 t = c2 t) :
    sentOf c1 t = sentOf c2 t := by
  unfold sentOf; rw [h]

theorem recvOf_congr {c1 c2 : Circuit} {t : Nat} (h : c1 t = c2 t) :
    recvOf c1 t = recvOf c2 t := by
  unfold recvOf; rw [h]

theorem rttsOf_congr {c1 c2 : Circuit} {t : Nat} (h : c1 t = c2 t) :
    rttsOf c1 t = rttsOf c2 t := by
  unfold rttsOf; rw [h]

/-! ### Circuit ingestion lemmas -/

theorem ingestAll_frame (calls : List IngestCall) (c : Circuit) (t : Nat)
    (h : ∀ cl ∈ calls, cl.ttl ≠ t) : (c.ingestAll calls) t = c t := by
  induction calls generalizing c with
  | nil => rfl
  | cons cl calls ih =>
    have hstep : (c.update_hop_round cl.ttl cl.address cl.probes cl.samples) t = c t :=
      update_frame c cl.ttl cl.address cl.probes cl.samples t
        (fun hh => h cl (by simp) hh.symm)
    calc (c.ingestAll (cl :: calls)) t
        = ((c.update_hop_round cl.ttl cl.address cl.probes cl.samples).ingestAll calls) t := rfl
      _ = (c.update_hop_round cl.ttl cl.address cl.probes cl.samples) t :=
          ih _ (fun cl' hcl' => h cl' (by simp [hcl']))
      _ = c t := hstep

theorem clamp_nonneg (p : Int) : 0 ≤ (if p < 0 then 0 else p) := by
  split
  · exact le_refl 0
  · omega

theorem sentOf_update_mono (c : Circuit) (ttl : Nat) (a : Option String)
    (p : Int) (s : List ℚ) (t : Nat) :
    sentOf c t ≤ sentOf (c.update_hop_round ttl a p s) t := by
  by_cases ht : t = ttl
  · subst ht
    rw [sentOf_update_self]
    have := clamp_nonneg p
    omega
  · rw [sentOf_congr (update_frame c ttl a p s t ht)]

theorem recvOf_update_mono (c : Circuit) (ttl : Nat) (a : Option String)
    (p : Int) (s : List ℚ) (t : Nat) :
    recvOf c t ≤ recvOf (c.update_hop_round ttl a p s) t := by
  by_cases ht : t = ttl
  · subst ht
    rw [recvOf_update_self]
    omega
  · rw [recvOf_congr (update_frame c ttl a p s t ht)]

theorem sentOf_ingestAll_mono (calls : List IngestCall) (c : Circuit) (t : Nat) :
    sentOf c t ≤ sentOf (c.ingestAll calls) t := by
  induction calls generalizing c with
  | nil => exact le_refl _
  | cons cl calls ih =>
    exact le_trans (sentOf_update_mono c cl.ttl cl.address cl.probes cl.samples t) (ih _)

theorem recvOf_ingestAll_mono (calls : List IngestCall) (c : Circuit) (t : Nat) :
    recvOf c t ≤ recvOf (c.ingestAll calls) t := by
  induction calls generalizing c with
  | nil => exact le_refl _
  | cons cl calls ih =>
    exact le_trans (recvOf_update_mono c cl.ttl cl.address cl.probes cl.samples t) (ih _)

/-- Counter/sample-list invariant that needs no hypothesis on the calls. -/
def BasicInv (c : Circuit) : Prop :=
  ∀ t, 0 ≤ sentOf c t ∧ 0 ≤ recvOf c t ∧ ((rttsOf c t).length : ℤ) = recvOf c t

theorem basicInv_empty : BasicInv Circuit.empty := by
  intro t
  refine ⟨le_refl _, le_refl _, rfl⟩

theorem basicInv_update {c : Circuit} (h : BasicInv c) (ttl : Nat)
    (a : Option String) (p : Int) (s : List ℚ) :
    BasicInv (c.update_hop_round ttl a p s) := by
  intro t
  by_cases ht : t = ttl
  · subst ht
    obtain ⟨h1, h2, h3⟩ := h t
    rw [sentOf_update_self, recvOf_update_self, rttsOf_update_self]
    have := clamp_nonneg p
    refine ⟨by omega, by omega, ?_⟩
    rw [List.length_append]
    push_cast
    omega
  · rw [sentOf_congr (update_frame c ttl a p s t ht),
        recvOf_congr (update_frame c ttl a p s t ht),
        rttsOf_congr (update_frame c ttl a p s t ht)]
    exact h t

theorem basicInv_ingestAll (calls : List IngestCall) {c : Circuit} (h : BasicInv c) :
    BasicInv (c.ingestAll calls) := by
  induction calls generalizing c with
  | nil => exact h
  | cons cl calls ih => exact ih (basicInv_update h cl.ttl cl.address cl.probes cl.samples)

/-- `recv ≤ sent`, preserved as long as each call supplies at most
`probes`-many samples. -/
def RecvLeSent (c : Circuit) : Prop := ∀ t, recvOf c t ≤ sentOf c t

theorem recvLeSent_update {c : Circuit} (h : RecvLeSent c) (ttl : Nat)
    (a : Option String) {p : Int} {s : List ℚ} (hps : (s.length : ℤ) ≤ p) :
    RecvLeSent (c.update_hop_round ttl a p s) := by
  intro t
  by_cases ht : t = ttl
  · subst ht
    rw [sentOf_update_self, recvOf_update_self]
    have := h t
    have hclamp : p ≤ (if p < 0 then 0 else p) := by split <;> omega
    omega
  · rw [sentOf_congr (update_frame c ttl a p s t ht),
        recvOf_congr (update_frame c ttl a p s t ht)]
    exact h t

theorem recvLeSent_ingestAll (calls : List IngestCall) {c : Circuit}
    (h : RecvLeSent c)
    (hcalls : ∀ cl ∈ calls, ((cl.samples.length : ℤ) ≤ cl.probes)) :
    RecvLeSent (c.ingestAll calls) := by
  induction calls generalizing c with
  | nil => exact h
  | cons cl calls ih =>
    exact ih (recvLeSent_update h cl.ttl cl.address (hcalls cl (by simp)))
      (fun cl' hcl' => hcalls cl' (by simp [hcl']))

theorem mtrStepHop_ttl (rtts : Nat → Option ℚ) (hs : HopStat) :
    (mtrStepHop rtts hs).ttl = hs.ttl := by
  unfold mtrStepHop
  cases h : rtts hs.ttl with
  | none => simp [h]
  | some r => simp [h]

theorem mtrStepHop_none {rtts : Nat → Option ℚ} {hs : HopStat}
    (h : rtts hs.ttl = none) :
    mtrStepHop rtts hs = { hs with sent := hs.sent + 1 } := by
  unfold mtrStepHop
  simp [h]

theorem mtrStepHop_sent (rtts : Nat → Option ℚ) (hs : HopStat) :
    (mtrStepHop rtts hs).sent = hs.sent + 1 := by
  unfold mtrStepHop
  cases h : rtts hs.ttl with
  | none => simp [h]
  | some r => simp [h]

theorem mtrStepHop_recv_mono (rtts : Nat → Option ℚ) (hs : HopStat) :
    hs.recv ≤ (mtrStepHop rtts hs).recv := by
  unfold mtrStepHop
  cases h : rtts hs.ttl with
  | none => simp [h]
  | some r => simp [h]

/-! ### Claim theorems -/

/-- C1: for every ingestion call on a Circuit with hop number `ttl`, probe
count `p ≥ 0` and RTT sample list `s`, the hop's `sent` counter grows by
exactly `p` and its `recv` counter by exactly `s.length`, independent of
which other hops are ingested in the same round (here: any calls for other
hop numbers before and after it). -/
theorem C1_round_attribution (c : Circuit) (ttl : Nat) (addr : Option String)
    (p : Int) (s : List ℚ) (hp : 0 ≤ p) (pre post : List IngestCall)
    (hpre : ∀ cl ∈ pre, cl.ttl ≠ ttl) (hpost : ∀ cl ∈ post, cl.ttl ≠ ttl) :
    sentOf (c.ingestAll (pre ++ ⟨ttl, addr, p, s⟩ :: post)) ttl = sentOf c ttl + p ∧
    recvOf (c.ingestAll (pre ++ ⟨ttl, addr, p, s⟩ :: post)) ttl = recvOf c ttl + s.length := by
  have hsplit : c.ingestAll (pre ++ ⟨ttl, addr, p, s⟩ :: post)
      = ((c.ingestAll pre).update_hop_round ttl addr p s).ingestAll post := by
    unfold Circuit.ingestAll
    rw [List.foldl_append]
    rfl
  have hpre' : (c.ingestAll pre) ttl = c ttl := ingestAll_frame pre c ttl hpre
  have hpost' : (((c.ingestAll pre).update_hop_round ttl addr p s).ingestAll post) ttl
      = ((c.ingestAll pre).update_hop_round ttl addr p s) ttl :=
    ingestAll_frame post _ ttl hpost
  have hclamp : (if p < 0 then 0 else p) = p := by omega
  constructor
  · rw [hsplit, sentOf_congr hpost', sentOf_update_self, sentOf_congr hpre', hclamp]
  · rw [hsplit, recvOf_congr hpost', recvOf_update_self, recvOf_congr hpre']

/-- Witness for C1: a fresh Circuit ingesting a round in which hop 3 returned
2 of 3 probe RTTs (plus another hop's entry) ends with `sent = 3`,
`recv = 2` at hop 3. -/
theorem C1_round_attribution_witness :
    sentOf (Circuit.ingestAll Circuit.empty
        [⟨3, some "a", 3, [1, 2]⟩, ⟨4, none, 3, []⟩]) 3 = sentOf Circuit.empty 3 + 3 ∧
    recvOf (Circuit.ingestAll Circuit.empty
        [⟨3, some "a", 3, [1, 2]⟩, ⟨4, none, 3, []⟩]) 3
      = recvOf Circuit.empty 3 + ([(1 : ℚ), 2]).length :=
  C1_round_attribution Circuit.empty 3 (some "a") 3 [1, 2] (by decide)
    [] [⟨4, none, 3, []⟩] (by simp) (by decide)

/-- C2 as stated is false: a call with `probes_attempted = 0` but one RTT
sample leaves hop 1 with `recv = 1 > 0 = sent`. -/
theorem C2_counterexample :
    recvOf (Circuit.ingestAll Circuit.empty [⟨1, none, 0, [1]⟩]) 1 = 1 ∧
    sentOf (Circuit.ingestAll Circuit.empty [⟨1, none, 0, [1]⟩]) 1 = 0 ∧
    ¬ recvOf (Circuit.ingestAll Circuit.empty [⟨1, none, 0, [1]⟩]) 1
        ≤ sentOf (Circuit.ingestAll Circuit.empty [⟨1, none, 0, [1]⟩]) 1 :=
  ⟨by decide, by decide, by decide⟩

/-- C2 (amended): after any sequence of ingestion calls on a fresh Circuit,
every hop has non-negative counters and stores exactly `recv` RTT samples;
and if every call supplies at most `probes`-many samples (as every caller in
the program does), then `recv ≤ sent` for every hop. -/
theorem C2_invariants (calls : List IngestCall) :
    (∀ t, 0 ≤ sentOf (Circuit.ingestAll Circuit.empty calls) t ∧
          0 ≤ recvOf (Circuit.ingestAll Circuit.empty calls) t ∧
          ((rttsOf (Circuit.ingestAll Circuit.empty calls) t).length : ℤ)
            = recvOf (Circuit.ingestAll Circuit.empty calls) t) ∧
    ((∀ cl ∈ calls, (cl.samples.length : ℤ) ≤ cl.probes) →
      ∀ t, recvOf (Circuit.ingestAll Circuit.empty calls) t
            ≤ sentOf (Circuit.ingestAll Circuit.empty calls) t) :=
  ⟨basicInv_ingestAll calls basicInv_empty,
   fun h => recvLeSent_ingestAll calls (fun _ => le_refl 0) h⟩

/-- Witness for C2 (amended): a 2-of-3 ingestion keeps `recv ≤ sent`. -/
theorem C2_invariants_witness :
    recvOf (Circuit.ingestAll Circuit.empty [⟨3, some "x", 3, [5, 7]⟩]) 3
      ≤ sentOf (Circuit.ingestAll Circuit.empty [⟨3, some "x", 3, [5, 7]⟩]) 3 :=
  (C2_invariants [⟨3, some "x", 3, [5, 7]⟩]).2 (by decide) 3

/-- C8: `sent` and `recv` never decrease, neither under any sequence of
`Circuit.update_hop_round` ingestions (even with zero/negative probe counts
or empty sample lists) nor under the direct per-round update of `mtr_loop`. -/
theorem C8_monotonicity (c : Circuit) (calls : List IngestCall) (t : Nat) :
    (sentOf c t ≤ sentOf (c.ingestAll calls) t ∧
     recvOf c t ≤ recvOf (c.ingestAll calls) t) ∧
    ∀ (rtts : Nat → Option ℚ) (hs : HopStat),
      hs.sent ≤ (mtrStepHop rtts hs).sent ∧ hs.recv ≤ (mtrStepHop rtts hs).recv :=
  ⟨⟨sentOf_ingestAll_mono calls c t, recvOf_ingestAll_mono calls c t⟩,
   fun rtts hs => ⟨by rw [mtrStepHop_sent]; omega, mtrStepHop_recv_mono rtts hs⟩⟩

/-- C3 as stated is false for the live loop: `mtr_loop` increments `sent`
for every seeded hop on every round, even when the hop is absent from the
round's parsed result (here: an empty result map), so such a hop is not
"left entirely untouched". -/
theorem C3_counterexample :
    mtrUpdateStats [{ ttl := 3, address := some "10.0.0.1" }] (fun _ => none)
      = [{ ttl := 3, address := some "10.0.0.1", sent := 1 }] ∧
    mtrUpdateStats [{ ttl := 3, address := some "10.0.0.1" }] (fun _ => none)
      ≠ [{ ttl := 3, address := some "10.0.0.1" }] :=
  ⟨by decide, by decide⟩

/-- C3 (amended): under `Circuit.update_hop_round` ingestion a hop number
absent from the round's calls is entirely untouched (in particular a
never-present hop stays absent); in the live loop a hop number not among the
seeded `hopstats` never appears in the updated list, but a seeded hop absent
from the round's result map still has `sent` incremented by 1 (its `recv`
and sample list are untouched). -/
theorem C3_unseen_hop (c : Circuit) (calls : List IngestCall) (t : Nat)
    (hcalls : ∀ cl ∈ calls, cl.ttl ≠ t)
    (hopstats : List HopStat) (rtts : Nat → Option ℚ)
    (hseed : ∀ h ∈ hopstats, h.ttl ≠ t) :
    (c.ingestAll calls) t = c t ∧
    (∀ h' ∈ mtrUpdateStats hopstats rtts, h'.ttl ≠ t) ∧
    (∀ hs : HopStat, rtts hs.ttl = none →
      mtrStepHop rtts hs = { hs with sent := hs.sent + 1 }) := by
  refine ⟨ingestAll_frame calls c t hcalls, ?_, fun hs h => mtrStepHop_none h⟩
  intro h' hh'
  obtain ⟨h, hmem, hmap⟩ := List.mem_map.mp hh'
  rw [← hmap, mtrStepHop_ttl]
  exact hseed h hmem

/-- Witness for C3 (amended): with round data for hop 5 only, hop 7 stays
absent from the Circuit; the loop's update of a seeded hop 5 with an empty
round result only bumps `sent`. -/
theorem C3_unseen_hop_witness :
    (Circuit.ingestAll Circuit.empty [⟨5, none, 1, []⟩]) 7 = Circuit.empty 7 ∧
    (∀ h' ∈ mtrUpdateStats [{ ttl := 5, address := none }] (fun _ => none), h'.ttl ≠ 7) ∧
    (∀ hs : HopStat, (fun _ : Nat => (none : Option ℚ)) hs.ttl = none →
      mtrStepHop (fun _ => none) hs = { hs with sent := hs.sent + 1 }) :=
  C3_unseen_hop Circuit.empty [⟨5, none, 1, []⟩] 7 (by decide)
    [{ ttl := 5, address := none }] (fun _ => none) (by decide)

/-- C4 as stated is false: the alert block keeps no per-hop "last lost"
state, so a render pass over a table whose hop 4 has unchanged
`lost = max(0, 7-5) = 2` emits an alert on every pass — a second consecutive
pass produces one alert, not zero. -/
theorem C4_counterexample :
    lossAlertPass [{ ttl := 4, address := some "10.0.0.1", sent := 7, recv := 5 }]
      = [(4, 2)] ∧
    lossAlertPass [{ ttl := 4, address := some "10.0.0.1", sent := 7, recv := 5 }]
      ≠ [] :=
  ⟨by decide, by decide⟩

theorem alertFn_eq :
    (fun hs : HopStat =>
      if hs.address = none || hs.address = some "*" then none
      else
        let lost := max 0 (hs.sent - hs.recv)
        if 0 < lost then some (hs.ttl, lost) else none)
    = (fun hs : HopStat =>
        if alertEligible hs then some (hs.ttl, max 0 (hs.sent - hs.recv)) else none) := by
  funext hs
  unfold alertEligible
  by_cases h1 : hs.address = none
  · simp [h1]
  · by_cases h2 : hs.address = some "*"
    · simp [h2]
    · by_cases h3 : 0 < max 0 (hs.sent - hs.recv)
      · simp [h1, h2, h3]
      · simp [h1, h2, h3]

/-- C4 (amended): a render pass emits exactly one alert per hop whose
address is known (neither `None` nor `"*"`) and whose total
`lost = max(0, sent - recv)` is positive, carrying the hop number and that
total; being stateless, it does so on every pass regardless of whether
`lost` increased since the previous pass. -/
theorem C4_alert_every_pass (hops : List HopStat) :
    (lossAlertPass hops).length = (hops.filter alertEligible).length ∧
    ∀ h ∈ hops, alertEligible h = true →
      (h.ttl, max 0 (h.sent - h.recv)) ∈ lossAlertPass hops := by
  have hfn : lossAlertPass hops = hops.filterMap (fun hs =>
      if alertEligible hs then some (hs.ttl, max 0 (hs.sent - hs.recv)) else none) := by
    unfold lossAlertPass
    rw [alertFn_eq]
  constructor
  · rw [hfn]
    clear hfn
    induction hops with
    | nil => rfl
    | cons h hops ih =>
      rw [List.filterMap_cons, List.filter_cons]
      by_cases he : alertEligible h = true
      · simp [he, ih]
      · simp only [Bool.not_eq_true] at he
        simp [he, ih]
  · intro h hh he
    rw [hfn]
    exact List.mem_filterMap.mpr ⟨h, hh, by simp [he]⟩

/-- Witness for C4 (amended): the hop with `lost = 2` gets its alert in a
pass (over the one-row table the pass has exactly that one alert). -/
theorem C4_alert_every_pass_witness :
    ((4 : Nat), max 0 ((7 : Int) - 5)) ∈
      lossAlertPass [{ ttl := 4, address := some "10.0.0.1", sent := 7, recv := 5 }] :=
  (C4_alert_every_pass [{ ttl := 4, address := some "10.0.0.1", sent := 7, recv := 5 }]).2
    { ttl := 4, address := some "10.0.0.1", sent := 7, recv := 5 } (by simp) (by decide)

/-- C9 as stated is false: the loop sleeps `max(0.01, interval)` regardless
of how long the round took; with `interval = 1` and a round lasting 2, the
claimed sleep is `max(0, 1 - 2) = 0` but the code sleeps 1. -/
theorem C9_counterexample :
    loopSleepSeconds 1 = 1 ∧ specSleepSeconds 1 2 = 0 ∧
    loopSleepSeconds 1 ≠ specSleepSeconds 1 2 := by
  have h1 : loopSleepSeconds 1 = 1 := by
    unfold loopSleepSeconds
    rw [max_eq_right]
    norm_num
  have h2 : specSleepSeconds 1 2 = 0 := by
    unfold specSleepSeconds
    rw [max_eq_left]
    norm_num
  exact ⟨h1, h2, by rw [h1, h2]; norm_num⟩

/-- C9 (amended): the sleep before the next round is the constant
`max(0.01, interval)`: always positive, never shorter than the configured
interval, and equal to it whenever `interval ≥ 0.01` — independent of the
round's duration, which does not enter the computation at all. -/
theorem C9_fixed_sleep (interval : ℚ) :
    0 < loopSleepSeconds interval ∧
    interval ≤ loopSleepSeconds interval ∧
    (1 / 100 ≤ interval → loopSleepSeconds interval = interval) := by
  refine ⟨?_, le_max_right _ _, fun h => max_eq_right h⟩
  exact lt_max_iff.mpr (Or.inl (by norm_num))

/-- Witness for C9 (amended) at `interval = 0.2`. -/
theorem C9_fixed_sleep_witness :
    0 < loopSleepSeconds (1 / 5) ∧
    1 / 5 ≤ loopSleepSeconds (1 / 5) ∧
    (1 / 100 ≤ (1 / 5 : ℚ) → loopSleepSeconds (1 / 5) = 1 / 5) :=
  C9_fixed_sleep (1 / 5)

/-- C7: when the round budget expires, both round runners kill the
subprocess (`Bool` component `true`) and return — not raise — a failed empty
round: no hop samples, no addresses, success flag `false` for
`run_tracer_round`, and the empty responders map for the q=1
`run_traceroute_round`. -/
theorem C7_timeout_empty_round :
    run_tracer_round CommOutcome.timedOut
      = Except.ok (⟨fun _ => none, fun _ => none, false⟩, true) ∧
    run_traceroute_round CommOutcome.timedOut = Except.ok (fun _ => none, true) :=
  ⟨rfl, rfl⟩

/-- C10: for every input text, the parser's two result dicts always hold
exactly the same hop numbers, and the `ok` flag is true iff at least one hop
line was recognized (= the common key set is non-empty). -/
theorem C10_keyset_ok (lines : List (List Char)) :
    (∀ t, ((parseTracerOutput lines).rtts t).isSome
            ↔ ((parseTracerOutput lines).addrs t).isSome) ∧
    ((parseTracerOutput lines).ok = true
      ↔ ∃ t, ((parseTracerOutput lines).rtts t).isSome) :=
  keysOkInv_foldl lines ParseState.init keysOkInv_init

theorem dropWhile_head_eq_false {α : Type} {p : α → Bool} {l : List α} {c : α}
    {cs : List α} (h : l.dropWhile p = c :: cs) : p c = false := by
  induction l with
  | nil => simp at h
  | cons a l ih =>
    rw [List.dropWhile_cons] at h
    split at h
    · exact ih h
    · rename_i hpa
      injection h with h1 _
      subst h1
      simpa using hpa

theorem stripWs_prefix (s : List Char) : stripWs s <+: s.dropWhile wsChar := by
  unfold stripWs
  rw [← List.reverse_suffix]
  simp only [List.reverse_reverse]
  exact List.dropWhile_suffix _

theorem stripWs_head_not_ws {s : List Char} {c : Char} {cs : List Char}
    (h : stripWs s = c :: cs) : wsChar c = false := by
  obtain ⟨t, ht⟩ := stripWs_prefix s
  rw [h] at ht
  exact dropWhile_head_eq_false ht.symm

theorem foldl_parseLine_isSome (ls : List (List Char)) (st : ParseState) (n : Nat)
    (h : (st.rtts n).isSome = true) :
    ((ls.foldl parseLine st).rtts n).isSome = true := by
  induction ls generalizing st with
  | nil => exact h
  | cons l ls ih => exact ih _ (parseLine_isSome_mono.1 h)

/-- C5: a recognized hop line whose remainder consists only of `*` markers
(and whitespace) always leaves hop `n` present in the parsed round result;
when no other line of the round mentions hop `n`, its entry is exactly the
empty sample list with no address. -/
theorem C5_star_line (pre post : List (List Char)) (line : List Char)
    (n : Nat) (g : List Char)
    (hm : matchTR line = some (n, g))
    (hne : stripWs g ≠ [])
    (hstar : ∀ c ∈ stripWs g, c = '*' ∨ wsChar c = true) :
    ((parseTracerOutput (pre ++ line :: post)).rtts n).isSome = true ∧
    ((∀ l ∈ pre ++ post, mentionsHop n l = false) →
      (parseTracerOutput (pre ++ line :: post)).rtts n = some [] ∧
      (parseTracerOutput (pre ++ line :: post)).addrs n = some none) := by
  obtain ⟨c, cs, hval⟩ : ∃ c cs, stripWs g = c :: cs := by
    cases hv : stripWs g with
    | nil => exact absurd hv hne
    | cons c cs => exact ⟨c, cs, rfl⟩
  have hcw : wsChar c = false := stripWs_head_not_ws hval
  have hc : c = '*' := by
    rcases hstar c (by rw [hval]; simp) with h | h
    · exact h
    · rw [hcw] at h; cases h
  have hhead : (stripWs g).head? = some '*' := by rw [hval, hc]; rfl
  have hsplit : parseTracerOutput (pre ++ line :: post)
      = post.foldl parseLine (parseLine (pre.foldl parseLine ParseState.init) line) := by
    unfold parseTracerOutput
    rw [List.foldl_append]
    rfl
  have hline : parseLine (pre.foldl parseLine ParseState.init) line
      = starBranch (pre.foldl parseLine ParseState.init) n := by
    rw [parseLine_match hm, if_pos hhead]
  constructor
  · rw [hsplit, hline]
    apply foldl_parseLine_isSome
    simp [starBranch]
  · intro hothers
    have hpre : ∀ l ∈ pre, mentionsHop n l = false := fun l hl => hothers l (by simp [hl])
    have hpost : ∀ l ∈ post, mentionsHop n l = false := fun l hl => hothers l (by simp [hl])
    have h0 := @foldl_parseLine_frame n pre ParseState.init hpre
    have hr0 : (pre.foldl parseLine ParseState.init).rtts n = none := by
      rw [h0.1]; rfl
    have hstarr : (starBranch (pre.foldl parseLine ParseState.init) n).rtts n = some [] := by
      simp [starBranch, hr0]
    have hstara : (starBranch (pre.foldl parseLine ParseState.init) n).addrs n
        = some none := by
      simp [starBranch]
    have hpost' := @foldl_parseLine_frame n post
      (starBranch (pre.foldl parseLine ParseState.init) n) hpost
    rw [hsplit, hline]
    exact ⟨hpost'.1.trans hstarr, hpost'.2.trans hstara⟩

/-- Witness for C5: the round output line `"3  * * *"` alone yields hop 3
with an empty sample list and no address. -/
theorem C5_star_line_witness :
    ((parseTracerOutput ["3  * * *".data]).rtts 3).isSome = true ∧
    ((∀ l ∈ ([] : List (List Char)) ++ ([] : List (List Char)),
        mentionsHop 3 l = false) →
      (parseTracerOutput ["3  * * *".data]).rtts 3 = some [] ∧
      (parseTracerOutput ["3  * * *".data]).addrs 3 = some none) :=
  C5_star_line [] [] "3  * * *".data 3 "* * *".data (by decide) (by decide) (by decide)

/-- C6 as stated is false: two sample-bearing lines for hop 5 leave only the
last line's single sample (the assignment `rtts_by_ttl[ttl] = samples`
overwrites), not the two-sample concatenation. -/
theorem C6_counterexample :
    (((parseTracerOutput
        ["5  1.2.3.4  10.5 ms".data, "5  1.2.3.4  20.5 ms".data]).rtts 5).getD []).length
      = 1 ∧
    (parseTracerOutput
        ["5  1.2.3.4  10.5 ms".data, "5  1.2.3.4  20.5 ms".data]).rtts 5
      ≠ some (findRtts (stripWs "1.2.3.4  10.5 ms".data)
              ++ findRtts (stripWs "1.2.3.4  20.5 ms".data)) := by
  refine ⟨by decide, fun h => ?_⟩
  have hlen := congrArg (fun o : Option (List ℚ) => (o.getD []).length) h
  exact absurd hlen (by decide)

/-- C6 (amended): when the same hop number appears on several recognized
lines, the stored samples are those of the *last* sample-bearing
(non-all-star) line for that hop — earlier lines' samples are overwritten,
while subsequent all-star lines leave them intact via `setdefault`. -/
theorem C6_last_nonstar_wins (pre post : List (List Char)) (line : List Char)
    (n : Nat) (g : List Char)
    (hm : matchTR line = some (n, g))
    (hns : (stripWs g).head? ≠ some '*')
    (hpost : ∀ l ∈ post, starOrOtherFor n l = true) :
    (parseTracerOutput (pre ++ line :: post)).rtts n
      = some (findRtts (stripWs g)) := by
  have hsplit : parseTracerOutput (pre ++ line :: post)
      = post.foldl parseLine (parseLine (pre.foldl parseLine ParseState.init) line) := by
    unfold parseTracerOutput
    rw [List.foldl_append]
    rfl
  have hline : parseLine (pre.foldl parseLine ParseState.init) line
      = sampleBranch (pre.foldl parseLine ParseState.init) n (stripWs g) := by
    rw [parseLine_match hm, if_neg hns]
  rw [hsplit, hline]
  exact foldl_parseLine_preserves_samples post _ (by simp [sampleBranch]) hpost

/-- Witness for C6 (amended): an earlier sample line for hop 5 is
overwritten by the later one, and a trailing `"5  * * *"` line does not
erase the stored sample. -/
theorem C6_last_nonstar_wins_witness :
    (parseTracerOutput
        (["5  9.9.9.9  1.5 ms".data]
          ++ "5  1.2.3.4  10.5 ms".data :: ["5  * * *".data])).rtts 5
      = some (findRtts (stripWs "1.2.3.4  10.5 ms".data)) :=
  C6_last_nonstar_wins ["5  9.9.9.9  1.5 ms".data] ["5  * * *".data]
    "5  1.2.3.4  10.5 ms".data 5 "1.2.3.4  10.5 ms".data
    (by decide) (by decide) (by decide)

end Mtr

